import Mathlib

/-!
Verification of the `zod-bignumber` schema-validation extension.

The development shallowly embeds `src/index.ts` (the `ZodBigNumber` class) and
the parts of its collaborators that the class observably uses:
the host framework's issue accumulation (`ParseStatus`, `addIssueToContext`,
`INVALID`) and the arbitrary-precision decimal engine (`bignumber.js`), which
the specification treats as an assumed-correct external primitive providing
exact parsing, comparison, modulo, and radix conversion of decimal numbers.

Finite arbitrary-precision decimal values are represented exactly as
`m / 10 ^ k` with `m : Int` and `k : Nat`, normalized so that a nonzero `k`
implies `m` is not divisible by 10 (mirroring the engine's trailing-zero-free
coefficient representation); `NaN` and signed infinity are separate
constructors.
-/

namespace ZodBig

/-! ### Decimal digit primitives (model of the engine's digit handling) -/

/-- Is the character a decimal digit. -/
def isDigitCh (c : Char) : Bool := '0' ≤ c && c ≤ '9'

/-- Numeric value of a decimal digit character. -/
def digitVal (c : Char) : Nat := c.toNat - 48

/-- The character for a decimal digit (0–9). -/
def digitChar10 : Nat → Char
  | 0 => '0' | 1 => '1' | 2 => '2' | 3 => '3' | 4 => '4'
  | 5 => '5' | 6 => '6' | 7 => '7' | 8 => '8' | 9 => '9'
  | _ => '*'

/-- Read a most-significant-first digit string as a natural number. -/
def natFromDigits (cs : List Char) : Nat :=
  cs.foldl (fun a c => a * 10 + digitVal c) 0

/-- Least-significant-first decimal digits, fuel-indexed for structural
recursion; fuel at least `n` suffices. -/
def digitsRevF : Nat → Nat → List Nat
  | 0, _ => []
  | fuel + 1, n => if n = 0 then [] else n % 10 :: digitsRevF fuel (n / 10)

/-- Least-significant-first decimal digits of `n` (empty for 0). -/
def digitsRev (n : Nat) : List Nat := digitsRevF n n

/-- Value of a least-significant-first digit list. -/
def ofDigitsRev : List Nat → Nat
  | [] => 0
  | d :: ds => d + 10 * ofDigitsRev ds

/-- Most-significant-first decimal digit characters of `n` (`"0"` for 0). -/
def digitString (n : Nat) : List Char :=
  if n = 0 then ['0'] else ((digitsRev n).reverse).map digitChar10

/-! ### The arbitrary-precision decimal value

Model of a `bignumber.js` value as the spec's glossary describes the engine:
an exact decimal (`fin m k` denotes `m / 10 ^ k`), signed infinity, or NaN. -/

/-- An arbitrary-precision decimal value. `fin m k` denotes `m / 10 ^ k`. -/
inductive BigNum where
  | nan : BigNum
  | inf (neg : Bool) : BigNum
  | fin (m : Int) (k : Nat) : BigNum
deriving DecidableEq, Repr

/-- A finite value is stored with a trailing-zero-free fraction, mirroring the
engine's coefficient representation; `NaN` and infinities are always normal. -/
def BigNum.Normal : BigNum → Prop
  | .fin m k => k ≠ 0 → ¬ (10 : Int) ∣ m
  | _ => True

/-! ### Parsing text into a value (model of `new BigNumber(string)`) -/

/-- Strip one leading sign character, returning whether it was a minus. -/
def stripSign : List Char → Bool × List Char
  | '-' :: r => (true, r)
  | '+' :: r => (false, r)
  | r => (false, r)

/-- Parse an exponent suffix: optional sign followed by one or more digits. -/
def parseExpPart (cs : List Char) : Option Int :=
  let sp := stripSign cs
  let ds := sp.2.takeWhile isDigitCh
  if ds = [] ∨ sp.2.dropWhile isDigitCh ≠ [] then none
  else some (if sp.1 then -(natFromDigits ds : Int) else (natFromDigits ds : Int))

/-- Parse an unsigned decimal literal `digits [. digits] [e sign digits]`,
returning mantissa digits value, number of fraction digits, and exponent.
Mirrors the engine's accepted numeric grammar for decimal text. -/
def parseDec (cs : List Char) : Option (Nat × Nat × Int) :=
  let intD := cs.takeWhile isDigitCh
  let rest := cs.dropWhile isDigitCh
  match rest with
  | [] => if intD = [] then none else some (natFromDigits intD, 0, 0)
  | '.' :: rest2 =>
    let fracD := rest2.takeWhile isDigitCh
    let rest3 := rest2.dropWhile isDigitCh
    if intD = [] ∧ fracD = [] then none
    else
      match rest3 with
      | [] => some (natFromDigits (intD ++ fracD), fracD.length, 0)
      | 'e' :: rest4 =>
        (parseExpPart rest4).map (fun ex => (natFromDigits (intD ++ fracD), fracD.length, ex))
      | 'E' :: rest4 =>
        (parseExpPart rest4).map (fun ex => (natFromDigits (intD ++ fracD), fracD.length, ex))
      | _ => none
  | 'e' :: rest2 =>
    if intD = [] then none
    else (parseExpPart rest2).map (fun ex => (natFromDigits intD, 0, ex))
  | 'E' :: rest2 =>
    if intD = [] then none
    else (parseExpPart rest2).map (fun ex => (natFromDigits intD, 0, ex))
  | _ => none

/-- Drop trailing decimal zeros of the fraction: while the fraction is
nonempty and the mantissa ends in 0, divide the mantissa by 10. -/
def stripZerosN : Nat → Nat → Nat × Nat
  | m, 0 => (m, 0)
  | m, k + 1 => if m % 10 = 0 then stripZerosN (m / 10) k else (m, k + 1)

/-- Build a normalized finite value from sign, mantissa and fraction length. -/
def mkFin (neg : Bool) (m0 k0 : Nat) : BigNum :=
  let p := stripZerosN m0 k0
  BigNum.fin (if neg then -(p.1 : Int) else (p.1 : Int)) p.2

/-- Model of `new BigNumber(s)` on a character list: optional sign, then
`Infinity`, a decimal literal, or NaN for anything else. -/
def parseBigNumL (cs : List Char) : BigNum :=
  let sp := stripSign cs
  if sp.2 = ['I', 'n', 'f', 'i', 'n', 'i', 't', 'y'] then BigNum.inf sp.1
  else
    match parseDec sp.2 with
    | none => BigNum.nan
    | some (m0, k0, ex) =>
      if (k0 : Int) ≤ ex then mkFin sp.1 (m0 * 10 ^ (ex - k0).toNat) 0
      else mkFin sp.1 m0 ((k0 : Int) - ex).toNat

/-- Model of `new BigNumber(s)` for a string input. -/
def parseBigNum (s : String) : BigNum := parseBigNumL s.data

/-! ### Rendering a value as text (model of `BigNumber.prototype.toString`) -/

/-- Left-pad a digit string with zeros to the given length. -/
def padLeftZeros (ds : List Char) (len : Nat) : List Char :=
  List.replicate (len - ds.length) '0' ++ ds

/-- Plain decimal notation of `m / 10 ^ k` (what `toString(10)` yields for an
exact engine: the full digit expansion, a `.` when `k > 0`, `-` for negative
values and no `+` for positive ones). -/
def renderFixedL (m : Int) (k : Nat) : List Char :=
  let sign : List Char := if m < 0 then ['-'] else []
  let ds := digitString m.natAbs
  if k = 0 then sign ++ ds
  else
    let dsp := padLeftZeros ds (k + 1)
    sign ++ dsp.take (dsp.length - k) ++ '.' :: dsp.drop (dsp.length - k)

/-- Default notation of `m / 10 ^ k` (what `toString()` with no base yields):
exponential notation when the decimal exponent is at most -7 or at least 21,
plain decimal notation otherwise. -/
def renderNullL (m : Int) (k : Nat) : List Char :=
  if m = 0 then ['0']
  else
    let sign : List Char := if m < 0 then ['-'] else []
    let dsRev := digitsRev m.natAbs
    let e : Int := (dsRev.length : Int) - 1 - (k : Int)
    if e ≤ -7 ∨ 21 ≤ e then
      match (dsRev.dropWhile (· == 0)).reverse.map digitChar10 with
      | [] => ['0']
      | c :: cr =>
        sign ++ c :: (if cr = [] then [] else '.' :: cr)
          ++ 'e' :: (if e < 0 then '-' else '+') :: digitString e.natAbs
    else renderFixedL m k

/-- The character for a digit in bases up to 36 (`0`–`9` then `a`–`z`). -/
def baseDigitChar (d : Nat) : Char :=
  if d < 10 then digitChar10 d else Char.ofNat (87 + d)

/-- Least-significant-first digits of `n` in base `b`, fuel-indexed. -/
def natToBaseRevF : Nat → Nat → Nat → List Nat
  | 0, _, _ => []
  | fuel + 1, b, n => if n = 0 then [] else n % b :: natToBaseRevF fuel b (n / b)

/-- Most-significant-first digit characters of `n` in base `b`. -/
def natToBaseStr (b n : Nat) : List Char :=
  if n = 0 then ['0'] else ((natToBaseRevF n b n).reverse).map baseDigitChar

/-- Fraction digits of `num / den` in base `b`, up to `fuel` digits. -/
def fracToBaseF : Nat → Nat → Nat → Nat → List Nat
  | 0, _, _, _ => []
  | fuel + 1, b, num, den =>
    if num = 0 then []
    else (num * b / den) :: fracToBaseF fuel b (num * b % den) den

/-- Radix conversion of `m / 10 ^ k` to base `b` (what `toString(b)` yields
for a base other than 10): integer part exactly, then up to 20 fraction
digits, modelling the engine's bounded fraction expansion. -/
def renderBaseL (b : Nat) (m : Int) (k : Nat) : List Char :=
  let sign : List Char := if m < 0 then ['-'] else []
  let ip := m.natAbs / 10 ^ k
  let fp := m.natAbs % 10 ^ k
  let fr := fracToBaseF 20 b fp (10 ^ k)
  sign ++ natToBaseStr b ip ++ (if fr = [] then [] else '.' :: fr.map baseDigitChar)

/-- Model of `toString(base)`: `NaN` and infinities render as their names
regardless of base; a null base yields the default notation; base 10 yields
plain decimal notation; any other base converts the radix. -/
def bigToString (base : Option Nat) : BigNum → String
  | .nan => "NaN"
  | .inf neg => if neg then "-Infinity" else "Infinity"
  | .fin m k =>
    match base with
    | none => ⟨renderNullL m k⟩
    | some b => if b = 10 then ⟨renderFixedL m k⟩ else ⟨renderBaseL b m k⟩

/-! ### Comparisons, integrality, divisibility, finiteness
(model of `lt`/`lte`/`gt`/`gte`/`isInteger`/`modulo`/`isZero`/`isFinite`) -/

/-- Three-way comparison of integers. -/
def cmpI (a b : Int) : Ordering :=
  if a < b then .lt else if a = b then .eq else .gt

/-- Model of `comparedTo`: `none` when either side is NaN, otherwise the exact
order of the denoted extended real values (`fin m k` denotes `m / 10 ^ k`). -/
def bigCompare : BigNum → BigNum → Option Ordering
  | .nan, _ => none
  | _, .nan => none
  | .inf a, .inf b => some (if a = b then .eq else if a then .lt else .gt)
  | .inf a, .fin _ _ => some (if a then .lt else .gt)
  | .fin _ _, .inf b => some (if b then .gt else .lt)
  | .fin m1 k1, .fin m2 k2 => some (cmpI (m1 * 10 ^ k2) (m2 * 10 ^ k1))

/-- Model of `lt`: strictly below, false when either side is NaN. -/
def bigLt (a b : BigNum) : Bool := bigCompare a b = some .lt

/-- Model of `lte`: below or equal, false when either side is NaN. -/
def bigLte (a b : BigNum) : Bool :=
  bigCompare a b = some .lt ∨ bigCompare a b = some .eq

/-- Model of `gt`: strictly above, false when either side is NaN. -/
def bigGt (a b : BigNum) : Bool := bigCompare a b = some .gt

/-- Model of `gte`: above or equal, false when either side is NaN. -/
def bigGte (a b : BigNum) : Bool :=
  bigCompare a b = some .gt ∨ bigCompare a b = some .eq

/-- Model of `isInteger` on normalized values: finite with no fraction. -/
def bigIsInteger : BigNum → Bool
  | .fin _ 0 => true
  | _ => false

/-- Model of `isFinite`. -/
def bigIsFinite : BigNum → Bool
  | .fin _ _ => true
  | _ => false

/-- Model of `modulo(b).isZero()`: both sides finite, divisor nonzero, and the
quotient of the denoted values an integer; `NaN` results are never zero. -/
def bigModIsZero : BigNum → BigNum → Bool
  | .fin ma ka, .fin mb kb =>
    if mb = 0 then false else (mb * 10 ^ ka) ∣ (ma * 10 ^ kb)
  | _, _ => false

/-- The denoted rational of a finite value. -/
def toQ : BigNum → Option ℚ
  | .fin m k => some ((m : ℚ) / 10 ^ k)
  | _ => none

/-! ### The host framework's data the class touches -/

/-- A structured validation failure, one constructor per `addIssueToContext`
call site in `_parse`, carrying the fields that call passes. -/
inductive Issue where
  /-- The type gate's issue: code `invalid_type` with `expected`/`received`. -/
  | invalid_type (expected : String) (received : String) : Issue
  /-- The numeric-parse failure: code `invalid_type` with only the fixed
  message `Not a valid big number`. -/
  | invalid_big_number : Issue
  /-- The `int` check's issue: code `invalid_type`, expected `integer`,
  received `float`. -/
  | int_expected (message : Option String) : Issue
  /-- The `min` check's issue: code `too_small` (with `exact: false`). -/
  | too_small (inclusive : Bool) (minimum : BigNum) (message : Option String) : Issue
  /-- The `max` check's issue: code `too_big` (with `exact: false`). -/
  | too_big (inclusive : Bool) (maximum : BigNum) (message : Option String) : Issue
  /-- The `multipleOf` check's issue: code `not_multiple_of`. -/
  | not_multiple_of (multipleOf : BigNum) (message : Option String) : Issue
  /-- The `finite` check's issue: code `not_finite`. -/
  | not_finite (message : Option String) : Issue
deriving DecidableEq, Repr

/-- The raw input given to `_parse`: either a string, or any other runtime
value, abstracted to its `z.getParsedType` tag and its `String(...)` form. -/
inductive Input where
  | str (s : String) : Input
  | other (tag : String) (stringified : String) : Input
deriving DecidableEq, Repr

/-- Model of JavaScript `String(data)`. -/
def jsToString : Input → String
  | .str s => s
  | .other _ r => r

/-- Outcome of `_parse` as the host framework sees it: `INVALID`, or a
`{status, value}` record whose status is dirty when a check failed. -/
inductive ParseResult where
  | invalid : ParseResult
  | result (dirty : Bool) (value : String) : ParseResult
deriving DecidableEq, Repr

/-! ### The constraint chain and the validator definition -/

/-- A declarative check, the tagged variant `ZodBigNumberCheck` of the source:
`min`/`max` carry a bound and inclusivity, `multipleOf` a divisor, and
`int`/`finite` only an optional message. -/
inductive ZodBigNumberCheck where
  | min (value : BigNum) (inclusive : Bool) (message : Option String) : ZodBigNumberCheck
  | max (value : BigNum) (inclusive : Bool) (message : Option String) : ZodBigNumberCheck
  | int (message : Option String) : ZodBigNumberCheck
  | multipleOf (value : BigNum) (message : Option String) : ZodBigNumberCheck
  | finite (message : Option String) : ZodBigNumberCheck
deriving DecidableEq, Repr

/-- The validator definition `ZodBigNumberDef`: ordered check chain, coercion
flag, and output base (`none` models the `null` base). -/
structure ZodBigNumberDef where
  checks : List ZodBigNumberCheck
  coerce : Bool
  base : Option Nat
deriving DecidableEq, Repr

/-! ### The validation engine (`ZodBigNumber._parse`) -/

/-- One iteration of the check loop: the issue the `switch` adds for this
check when it is violated by the parsed value `v`, evaluated against `v`
itself (never against another check's outcome). The source's
`default: throw new Error` branch is the unreachable arm of a switch over the
closed check union; here the match is exhaustive, so it has no counterpart. -/
def checkIssue (v : BigNum) : ZodBigNumberCheck → Option Issue
  | .int message =>
    if !(bigIsInteger v) then some (.int_expected message) else none
  | .min value inclusive message =>
    let tooSmall := if inclusive then bigLt v value else bigLte v value
    if tooSmall then some (.too_small inclusive value message) else none
  | .max value inclusive message =>
    let tooBig := if inclusive then bigGt v value else bigGte v value
    if tooBig then some (.too_big inclusive value message) else none
  | .multipleOf value message =>
    if !(bigModIsZero v value) then some (.not_multiple_of value message) else none
  | .finite message =>
    if !(bigIsFinite v) then some (.not_finite message) else none

/-- State of the check loop: the context's accumulated issue list and the
`ParseStatus` dirtied by `status.dirty()`. -/
structure LoopState where
  issues : List Issue
  dirty : Bool
deriving DecidableEq, Repr

/-- One step of the `for (const check of this._def.checks)` loop: on a
violation, append the issue to the context and dirty the status; otherwise
continue unchanged. Never aborts. -/
def stepCheck (v : BigNum) (st : LoopState) (c : ZodBigNumberCheck) : LoopState :=
  match checkIssue v c with
  | some i => ⟨st.issues ++ [i], true⟩
  | none => st

/-- The whole check loop, in declared order, starting from a clean status. -/
def runChecks (v : BigNum) (checks : List ZodBigNumberCheck) : LoopState :=
  checks.foldl (stepCheck v) ⟨[], false⟩

/-- `ZodBigNumber._parse`: coerce to text if configured, gate on the input
being text, parse the text into a value, run the check chain, and return the
status with the value rendered in the configured base. The returned pair is
the context's issue list and the value `_parse` returns. -/
def zparse (d : ZodBigNumberDef) (input : Input) : List Issue × ParseResult :=
  let data := if d.coerce then Input.str (jsToString input) else input
  match data with
  | .other tag _ => ([Issue.invalid_type "string" tag], ParseResult.invalid)
  | .str s =>
    match parseBigNum s with
    | .nan => ([Issue.invalid_big_number], ParseResult.invalid)
    | v =>
      let st := runChecks v d.checks
      (st.issues, ParseResult.result st.dirty (bigToString d.base v))

deriving instance DecidableEq for Except

/-- The outcome `safeParse` delivers: failure with the context's issue list
when `_parse` aborted or the status is dirty, success with the value
otherwise. -/
def safeParse (d : ZodBigNumberDef) (input : Input) : Except (List Issue) String :=
  match zparse d input with
  | (issues, .invalid) => .error issues
  | (issues, .result dirty value) => if dirty then .error issues else .ok value

/-! ### The builder (`ZodBigNumber`'s constraint-adding methods) -/

/-- A message override: a plain string or an object with a `message` field. -/
inductive ErrorMessage where
  | str (s : String) : ErrorMessage
  | obj (message : Option String) : ErrorMessage
deriving DecidableEq, Repr

/-- `messageToString` from `utils.ts`, lifted over the optional argument. -/
def messageToString : Option ErrorMessage → Option String
  | none => none
  | some (.str s) => some s
  | some (.obj m) => m

/-- The validator instance: a value owning its definition. -/
structure ZodBigNumber where
  _def : ZodBigNumberDef
deriving DecidableEq, Repr

namespace ZodBigNumber

/-- `ZodBigNumber.create`: empty chain; `coerce` defaults to false and an
omitted `base` parameter defaults to 10 (a present `null` stays null). -/
def create (coerce : Option Bool) (base : Option (Option Nat)) : ZodBigNumber :=
  ⟨{ checks := [], coerce := coerce.getD false, base := base.getD (some 10) }⟩

/-- `_addCheck`: a new instance whose definition is the old one with the
check appended; the receiver is not modified. -/
def _addCheck (z : ZodBigNumber) (check : ZodBigNumberCheck) : ZodBigNumber :=
  ⟨{ z._def with checks := z._def.checks ++ [check] }⟩

def gte (z : ZodBigNumber) (value : BigNum) (message : Option ErrorMessage) : ZodBigNumber :=
  z._addCheck (.min value true (messageToString message))

def gt (z : ZodBigNumber) (value : BigNum) (message : Option ErrorMessage) : ZodBigNumber :=
  z._addCheck (.min value false (messageToString message))

def lte (z : ZodBigNumber) (value : BigNum) (message : Option ErrorMessage) : ZodBigNumber :=
  z._addCheck (.max value true (messageToString message))

def lt (z : ZodBigNumber) (value : BigNum) (message : Option ErrorMessage) : ZodBigNumber :=
  z._addCheck (.max value false (messageToString message))

def int (z : ZodBigNumber) (message : Option ErrorMessage) : ZodBigNumber :=
  z._addCheck (.int (messageToString message))

def positive (z : ZodBigNumber) (message : Option ErrorMessage) : ZodBigNumber :=
  z._addCheck (.min (BigNum.fin 0 0) false (messageToString message))

def negative (z : ZodBigNumber) (message : Option ErrorMessage) : ZodBigNumber :=
  z._addCheck (.max (BigNum.fin 0 0) false (messageToString message))

def nonpositive (z : ZodBigNumber) (message : Option ErrorMessage) : ZodBigNumber :=
  z._addCheck (.max (BigNum.fin 0 0) true (messageToString message))

def nonnegative (z : ZodBigNumber) (message : Option ErrorMessage) : ZodBigNumber :=
  z._addCheck (.min (BigNum.fin 0 0) true (messageToString message))

def multipleOf (z : ZodBigNumber) (value : BigNum) (message : Option ErrorMessage) : ZodBigNumber :=
  z._addCheck (.multipleOf value (messageToString message))

def finite (z : ZodBigNumber) (message : Option ErrorMessage) : ZodBigNumber :=
  z._addCheck (.finite (messageToString message))

/-- `min = this.gte`: the alias is the very same operation. -/
def min : ZodBigNumber → BigNum → Option ErrorMessage → ZodBigNumber := gte

/-- `max = this.lte`: the alias is the very same operation. -/
def max : ZodBigNumber → BigNum → Option ErrorMessage → ZodBigNumber := lte

/-- `step = this.multipleOf`: the alias is the very same operation. -/
def step : ZodBigNumber → BigNum → Option ErrorMessage → ZodBigNumber := multipleOf

end ZodBigNumber

/-! ### `_parse` with the engine's ambient debug toggle made explicit

`bignumber.js` exposes a global `BigNumber.DEBUG` flag; when it is truthy the
constructor throws on unparseable text instead of yielding NaN. The source's
`_parse` never writes that flag, so the embedding threads it through
unchanged and surfaces the possible constructor throw as an `Except`. -/

/-- The engine error thrown by `new BigNumber(s)` in debug mode. -/
inductive EngineError where
  | not_a_number (s : String) : EngineError
deriving DecidableEq, Repr

/-- Model of `new BigNumber(s)` under a debug flag of truthiness `truthy`:
throws on text that parses to NaN when the flag is truthy. -/
def engineNew (truthy : Bool) (s : String) : Except EngineError BigNum :=
  if truthy ∧ parseBigNum s = BigNum.nan then .error (.not_a_number s)
  else .ok (parseBigNum s)

/-- `ZodBigNumber._parse` with the ambient `BigNumber.DEBUG` value (of any
type `α`, compared only by truthiness) threaded through every path. The first
component is the call's outcome — `.error` is the exit path on which the
engine's constructor threw — and the second is the toggle's value when the
call exits. -/
def zparseDbg {α : Type} (truthy : α → Bool) (d : ZodBigNumberDef) (input : Input)
    (debug : α) : Except EngineError (List Issue × ParseResult) × α :=
  let data := if d.coerce then Input.str (jsToString input) else input
  match data with
  | .other tag _ => (.ok ([Issue.invalid_type "string" tag], ParseResult.invalid), debug)
  | .str s =>
    match engineNew (truthy debug) s with
    | .error e => (.error e, debug)
    | .ok .nan => (.ok ([Issue.invalid_big_number], ParseResult.invalid), debug)
    | .ok v =>
      let st := runChecks v d.checks
      (.ok (st.issues, ParseResult.result st.dirty (bigToString d.base v)), debug)

/-! ## Theorems

### Digit-string lemmas -/

theorem digitsRevF_eval (fuel n : Nat) (h : n ≤ fuel) :
    ofDigitsRev (digitsRevF fuel n) = n := by
  induction fuel generalizing n with
  | zero =>
    have hn : n = 0 := Nat.le_zero.mp h
    subst hn
    simp [digitsRevF, ofDigitsRev]
  | succ fuel ih =>
    by_cases h0 : n = 0
    · simp [digitsRevF, h0, ofDigitsRev]
    · have hdiv : n / 10 ≤ fuel := by
        have : n / 10 < n := Nat.div_lt_self (Nat.pos_of_ne_zero h0) (by norm_num)
        omega
      simp only [digitsRevF, h0, if_false, ofDigitsRev, ih _ hdiv]
      omega

theorem ofDigitsRev_digitsRev (n : Nat) : ofDigitsRev (digitsRev n) = n :=
  digitsRevF_eval n n le_rfl

theorem digitsRevF_lt_ten (fuel n : Nat) : ∀ d ∈ digitsRevF fuel n, d < 10 := by
  induction fuel generalizing n with
  | zero => simp [digitsRevF]
  | succ fuel ih =>
    by_cases h0 : n = 0
    · simp [digitsRevF, h0]
    · simp only [digitsRevF, h0, if_false, List.mem_cons]
      rintro d (rfl | hd)
      · exact Nat.mod_lt _ (by norm_num)
      · exact ih _ d hd

theorem digitsRev_lt_ten (n : Nat) : ∀ d ∈ digitsRev n, d < 10 :=
  digitsRevF_lt_ten n n

theorem digitsRev_ne_nil (n : Nat) (h : n ≠ 0) : digitsRev n ≠ [] := by
  have hn : n ≤ n := le_rfl
  unfold digitsRev
  cases n with
  | zero => exact absurd rfl h
  | succ m => simp [digitsRevF, h]

theorem digitVal_digitChar10 (d : Nat) (h : d < 10) :
    digitVal (digitChar10 d) = d := by
  interval_cases d <;> decide

theorem isDigitCh_digitChar10 (d : Nat) (h : d < 10) :
    isDigitCh (digitChar10 d) = true := by
  interval_cases d <;> decide

theorem natFromDigits_snoc (a : List Char) (c : Char) :
    natFromDigits (a ++ [c]) = natFromDigits a * 10 + digitVal c := by
  simp [natFromDigits, List.foldl_append]

theorem natFromDigits_append (a b : List Char) :
    natFromDigits (a ++ b) = natFromDigits a * 10 ^ b.length + natFromDigits b := by
  induction b using List.reverseRecOn with
  | nil => simp [natFromDigits]
  | append_singleton bs c ih =>
    rw [← List.append_assoc, natFromDigits_snoc, natFromDigits_snoc, ih]
    rw [show (bs ++ [c]).length = bs.length + 1 by simp]
    ring

theorem natFromDigits_rev_map (ds : List Nat) (hds : ∀ d ∈ ds, d < 10) :
    natFromDigits (ds.reverse.map digitChar10) = ofDigitsRev ds := by
  induction ds with
  | nil => simp [natFromDigits, ofDigitsRev]
  | cons d ds ih =>
    simp only [List.reverse_cons, List.map_append, List.map_cons, List.map_nil]
    rw [natFromDigits_snoc, ih (fun x hx => hds x (List.mem_cons_of_mem _ hx))]
    rw [digitVal_digitChar10 d (hds d (List.mem_cons_self d ds))]
    simp only [ofDigitsRev]
    ring

theorem natFromDigits_digitString (n : Nat) :
    natFromDigits (digitString n) = n := by
  by_cases h0 : n = 0
  · simp [digitString, h0, natFromDigits, digitVal]
  · unfold digitString
    rw [if_neg h0, natFromDigits_rev_map _ (digitsRev_lt_ten n), ofDigitsRev_digitsRev]

theorem digitString_all_digits (n : Nat) :
    ∀ c ∈ digitString n, isDigitCh c = true := by
  unfold digitString
  by_cases h0 : n = 0
  · rw [if_pos h0]
    intro c hc
    simp only [List.mem_singleton] at hc
    subst hc
    decide
  · rw [if_neg h0]
    intro c hc
    simp only [List.mem_map, List.mem_reverse] at hc
    obtain ⟨d, hd, rfl⟩ := hc
    exact isDigitCh_digitChar10 d (digitsRev_lt_ten n d hd)

theorem digitString_ne_nil (n : Nat) : digitString n ≠ [] := by
  unfold digitString
  by_cases h0 : n = 0
  · simp [h0]
  · rw [if_neg h0]
    simp [digitsRev_ne_nil n h0]

/-! ### Lemmas about the check loop and the engine entry point -/

theorem foldl_stepCheck (v : BigNum) (cs : List ZodBigNumberCheck) (st : LoopState) :
    cs.foldl (stepCheck v) st =
      ⟨st.issues ++ cs.filterMap (checkIssue v),
       st.dirty || !(cs.filterMap (checkIssue v)).isEmpty⟩ := by
  induction cs generalizing st with
  | nil => simp
  | cons c cs ih =>
    rw [List.foldl_cons, ih]
    cases h : checkIssue v c with
    | some i => simp [stepCheck, h, List.filterMap_cons]
    | none => simp [stepCheck, h, List.filterMap_cons]

theorem runChecks_eq (v : BigNum) (cs : List ZodBigNumberCheck) :
    runChecks v cs =
      ⟨cs.filterMap (checkIssue v), !(cs.filterMap (checkIssue v)).isEmpty⟩ := by
  unfold runChecks
  rw [foldl_stepCheck]
  simp

theorem zparse_str (d : ZodBigNumberDef) (s : String) (h : parseBigNum s ≠ .nan) :
    zparse d (.str s) =
      (d.checks.filterMap (checkIssue (parseBigNum s)),
       .result (!(d.checks.filterMap (checkIssue (parseBigNum s))).isEmpty)
         (bigToString d.base (parseBigNum s))) := by
  unfold zparse
  have hdata : (if d.coerce then Input.str (jsToString (.str s)) else Input.str s)
      = Input.str s := by cases d.coerce <;> rfl
  rw [hdata]
  dsimp only
  cases hv : parseBigNum s with
  | nan => exact absurd hv h
  | inf b => dsimp only; rw [runChecks_eq]
  | fin m k => dsimp only; rw [runChecks_eq]

theorem zparse_str_nan (d : ZodBigNumberDef) (s : String) (h : parseBigNum s = .nan) :
    zparse d (.str s) = ([Issue.invalid_big_number], ParseResult.invalid) := by
  unfold zparse
  have hdata : (if d.coerce then Input.str (jsToString (.str s)) else Input.str s)
      = Input.str s := by cases d.coerce <;> rfl
  rw [hdata]
  dsimp only
  rw [h]

theorem checkIssue_ne_invalid_type (v : BigNum) (c : ZodBigNumberCheck) (i : Issue)
    (h : checkIssue v c = some i) : ∀ e r, i ≠ Issue.invalid_type e r := by
  intro e r hi
  subst hi
  cases c <;> simp only [checkIssue] at h <;> split at h <;> simp_all

/-! ### Comparison lemmas -/

theorem cmpI_eq_lt_iff (a b : Int) : cmpI a b = .lt ↔ a < b := by
  unfold cmpI
  split_ifs with h1 h2 <;> simp_all

theorem cmpI_eq_eq_iff (a b : Int) : cmpI a b = .eq ↔ a = b := by
  unfold cmpI
  split_ifs with h1 h2 <;> simp_all
  omega

theorem cmpI_eq_gt_iff (a b : Int) : cmpI a b = .gt ↔ b < a := by
  unfold cmpI
  split_ifs with h1 h2 <;> simp_all <;> omega

theorem fin_div_lt_iff (m1 : Int) (k1 : Nat) (m2 : Int) (k2 : Nat) :
    (m1 : ℚ) / 10 ^ k1 < (m2 : ℚ) / 10 ^ k2 ↔ m1 * 10 ^ k2 < m2 * 10 ^ k1 := by
  rw [div_lt_div_iff₀ (by positivity) (by positivity)]
  constructor
  · intro hlt
    exact_mod_cast hlt
  · intro hlt
    exact_mod_cast hlt

theorem fin_div_eq_iff (m1 : Int) (k1 : Nat) (m2 : Int) (k2 : Nat) :
    (m1 : ℚ) / 10 ^ k1 = (m2 : ℚ) / 10 ^ k2 ↔ m1 * 10 ^ k2 = m2 * 10 ^ k1 := by
  rw [div_eq_div_iff (by positivity) (by positivity)]
  constructor
  · intro heq
    exact_mod_cast heq
  · intro heq
    exact_mod_cast heq

theorem bigLt_fin_iff (m1 : Int) (k1 : Nat) (m2 : Int) (k2 : Nat) :
    bigLt (.fin m1 k1) (.fin m2 k2) = true ↔ (m1 : ℚ) / 10 ^ k1 < (m2 : ℚ) / 10 ^ k2 := by
  simp only [bigLt, bigCompare, decide_eq_true_eq, Option.some.injEq]
  rw [cmpI_eq_lt_iff, fin_div_lt_iff]

theorem bigLte_fin_iff (m1 : Int) (k1 : Nat) (m2 : Int) (k2 : Nat) :
    bigLte (.fin m1 k1) (.fin m2 k2) = true ↔ (m1 : ℚ) / 10 ^ k1 ≤ (m2 : ℚ) / 10 ^ k2 := by
  simp only [bigLte, bigCompare, decide_eq_true_eq, Option.some.injEq]
  rw [cmpI_eq_lt_iff, cmpI_eq_eq_iff, le_iff_lt_or_eq, fin_div_lt_iff, fin_div_eq_iff]

theorem bigGt_fin_iff (m1 : Int) (k1 : Nat) (m2 : Int) (k2 : Nat) :
    bigGt (.fin m1 k1) (.fin m2 k2) = true ↔ (m2 : ℚ) / 10 ^ k2 < (m1 : ℚ) / 10 ^ k1 := by
  simp only [bigGt, bigCompare, decide_eq_true_eq, Option.some.injEq]
  rw [cmpI_eq_gt_iff, fin_div_lt_iff]

theorem bigGte_fin_iff (m1 : Int) (k1 : Nat) (m2 : Int) (k2 : Nat) :
    bigGte (.fin m1 k1) (.fin m2 k2) = true ↔ (m2 : ℚ) / 10 ^ k2 ≤ (m1 : ℚ) / 10 ^ k1 := by
  simp only [bigGte, bigCompare, decide_eq_true_eq, Option.some.injEq]
  rw [cmpI_eq_gt_iff, cmpI_eq_eq_iff, le_iff_lt_or_eq, fin_div_lt_iff, fin_div_eq_iff]
  constructor
  · rintro (h | h)
    · exact Or.inl h
    · exact Or.inr h.symm
  · rintro (h | h)
    · exact Or.inl h
    · exact Or.inr h.symm

theorem zparse_coerce (d : ZodBigNumberDef) (input : Input) (hc : d.coerce = true) :
    zparse d input = zparse d (.str (jsToString input)) := by
  unfold zparse
  rw [hc]
  rfl

/-! ### Claim theorems -/

/-- C2: the engine's ambient debug/strictness toggle (`BigNumber.DEBUG`),
whatever its value and type, is exactly the value the caller set after
`_parse` returns on every exit path — success, failure, and the path on which
the engine's constructor throws — because `_parse` never writes it. -/
theorem debug_toggle_preserved {α : Type} (truthy : α → Bool) (d : ZodBigNumberDef)
    (input : Input) (debug : α) : (zparseDbg truthy d input debug).2 = debug := by
  unfold zparseDbg
  dsimp only
  split
  · rfl
  · split <;> rfl

/-- C9: `min` is the very same operation as `gte`, `max` the same as `lte`,
and `step` the same as `multipleOf` — the aliased pairs are definitionally
equal functions, not merely behaviourally equivalent ones. -/
theorem aliases_are_identical :
    ZodBigNumber.min = ZodBigNumber.gte
      ∧ ZodBigNumber.max = ZodBigNumber.lte
      ∧ ZodBigNumber.step = ZodBigNumber.multipleOf :=
  ⟨rfl, rfl, rfl⟩

/-- C7: every constraint-adding operation returns a new validator whose
definition is the old one with exactly one check appended — the chain grows
by one at the end and the coercion flag and base are untouched; the receiver,
a pure value, is left unmodified. -/
theorem builder_appends_one_check (z : ZodBigNumber) (v : BigNum)
    (m : Option ErrorMessage) :
    (z.gte v m)._def
        = { z._def with checks := z._def.checks ++ [.min v true (messageToString m)] }
      ∧ (z.gt v m)._def
        = { z._def with checks := z._def.checks ++ [.min v false (messageToString m)] }
      ∧ (z.lte v m)._def
        = { z._def with checks := z._def.checks ++ [.max v true (messageToString m)] }
      ∧ (z.lt v m)._def
        = { z._def with checks := z._def.checks ++ [.max v false (messageToString m)] }
      ∧ (z.int m)._def
        = { z._def with checks := z._def.checks ++ [.int (messageToString m)] }
      ∧ (z.positive m)._def
        = { z._def with checks := z._def.checks ++ [.min (.fin 0 0) false (messageToString m)] }
      ∧ (z.negative m)._def
        = { z._def with checks := z._def.checks ++ [.max (.fin 0 0) false (messageToString m)] }
      ∧ (z.nonpositive m)._def
        = { z._def with checks := z._def.checks ++ [.max (.fin 0 0) true (messageToString m)] }
      ∧ (z.nonnegative m)._def
        = { z._def with checks := z._def.checks ++ [.min (.fin 0 0) true (messageToString m)] }
      ∧ (z.multipleOf v m)._def
        = { z._def with checks := z._def.checks ++ [.multipleOf v (messageToString m)] }
      ∧ (z.finite m)._def
        = { z._def with checks := z._def.checks ++ [.finite (messageToString m)] } :=
  ⟨rfl, rfl, rfl, rfl, rfl, rfl, rfl, rfl, rfl, rfl, rfl⟩

/-- C10: with the coercion flag set, the wrong-type branch of the type gate is
unreachable — no input of any runtime type can produce an `invalid_type`
issue carrying `expected`/`received` tags, because the input is stringified
before the gate. -/
theorem coerce_gate_unreachable (d : ZodBigNumberDef) (input : Input)
    (e r : String) (hc : d.coerce = true) :
    Issue.invalid_type e r ∉ (zparse d input).1 := by
  rw [zparse_coerce d input hc]
  by_cases hv : parseBigNum (jsToString input) = .nan
  · rw [zparse_str_nan d _ hv]
    simp
  · rw [zparse_str d _ hv]
    intro hmem
    obtain ⟨c, _, hc2⟩ := List.mem_filterMap.mp hmem
    exact checkIssue_ne_invalid_type _ _ _ hc2 e r rfl

/-- C10 witness: the coercing validator never emits the wrong-type issue on a
number input. -/
theorem coerce_gate_unreachable_witness :
    Issue.invalid_type "string" "number"
      ∉ (zparse { checks := [], coerce := true, base := some 10 }
          (.other "number" "5")).1 :=
  coerce_gate_unreachable _ _ _ _ rfl

/-- C3: type and parse errors are terminal and singular. A non-string input
(without coercion) yields exactly the one wrong-type issue carrying
`expected: string` and the input's runtime type tag, aborts, and evaluates no
check regardless of the chain; a string whose parse is NaN yields exactly the
one parse issue, aborts, and evaluates no check regardless of the chain. -/
theorem type_and_parse_errors_terminal :
    (∀ (d : ZodBigNumberDef) (tag r : String), d.coerce = false →
      zparse d (.other tag r) = ([Issue.invalid_type "string" tag], ParseResult.invalid)
        ∧ safeParse d (.other tag r) = .error [Issue.invalid_type "string" tag])
      ∧ (∀ (d : ZodBigNumberDef) (s : String), parseBigNum s = .nan →
        zparse d (.str s) = ([Issue.invalid_big_number], ParseResult.invalid)
          ∧ safeParse d (.str s) = .error [Issue.invalid_big_number]) := by
  constructor
  · intro d tag r hc
    have hz : zparse d (.other tag r)
        = ([Issue.invalid_type "string" tag], ParseResult.invalid) := by
      unfold zparse
      rw [hc]
      rfl
    exact ⟨hz, by unfold safeParse; rw [hz]⟩

  · intro d s hs
    have hz := zparse_str_nan d s hs
    exact ⟨hz, by unfold safeParse; rw [hz]⟩

/-- C3 witness: a number input fails the gate with the single wrong-type
issue, and the unparseable string `aaa` fails with the single parse issue. -/
theorem type_and_parse_errors_terminal_witness :
    safeParse { checks := [], coerce := false, base := some 10 } (.other "number" "1")
        = .error [Issue.invalid_type "string" "number"]
      ∧ safeParse { checks := [], coerce := false, base := some 10 } (.str "aaa")
        = .error [Issue.invalid_big_number] :=
  ⟨(type_and_parse_errors_terminal.1 _ "number" "1" rfl).2,
   (type_and_parse_errors_terminal.2 _ "aaa" (by decide)).2⟩

/-- C6 counterexample: constraints other than `finite` also reject infinite
values, refuting the claim as stated. A `nonnegative` chain — a `min 0`
check, no `finite` check — rejects `-Infinity` with a `too_small` issue (not
`not_finite`), and an `int`-only chain rejects `Infinity`, so a chain merely
lacking a finite constraint does not always accept infinities. -/
theorem infinity_only_finite_counterexample :
    safeParse { checks := [.min (.fin 0 0) true none], coerce := false, base := some 10 }
        (.str "-Infinity")
        = .error [Issue.too_small true (.fin 0 0) none]
      ∧ safeParse { checks := [.int none], coerce := false, base := some 10 }
        (.str "Infinity")
        = .error [Issue.int_expected none] :=
  ⟨by decide, by decide⟩

/-- C6 (amended): `Infinity` and `-Infinity` pass the numeric-parse stage as
valid values; with an empty chain validation of `Infinity` succeeds; a
`finite` check rejects both with a single `not_finite` issue (other
constraints are evaluated against infinite values by their own semantics and
may also reject them). -/
theorem infinity_handling :
    parseBigNum "Infinity" = BigNum.inf false
      ∧ parseBigNum "-Infinity" = BigNum.inf true
      ∧ (∀ d : ZodBigNumberDef, d.checks = [] →
          safeParse d (.str "Infinity") = .ok "Infinity")
      ∧ safeParse ((ZodBigNumber.create none none).finite none)._def (.str "Infinity")
          = .error [Issue.not_finite none]
      ∧ safeParse ((ZodBigNumber.create none none).finite none)._def (.str "-Infinity")
          = .error [Issue.not_finite none] := by
  refine ⟨by decide, by decide, ?_, by decide, by decide⟩
  intro d hchecks
  have hz := zparse_str d "Infinity" (by decide)
  rw [show parseBigNum "Infinity" = BigNum.inf false from by decide, hchecks] at hz
  unfold safeParse
  rw [hz]
  rfl

/-- C6 witness: with the default empty chain, `Infinity` validates
successfully. -/
theorem infinity_handling_witness :
    safeParse { checks := [], coerce := false, base := some 10 } (.str "Infinity")
        = .ok "Infinity" :=
  infinity_handling.2.2.1 _ rfl

/-- C4: bound-check semantics. For finite values, a `min` check with
`inclusive = true` fires exactly when the value is below the bound and with
`inclusive = false` exactly when it is at or below it; a `max` check with
`inclusive = true` fires exactly when the value is above the bound and with
`inclusive = false` exactly when it is at or above it (values denote
`m / 10 ^ k` as rationals). Concretely, `gte(3)` accepts `3` and rejects `2`
while `gt(3)` rejects `3` and `2` and accepts `4`. -/
theorem bound_check_semantics :
    (∀ (mv : ℤ) (kv : ℕ) (mb : ℤ) (kb : ℕ) (msg : Option String),
      ((checkIssue (.fin mv kv) (.min (.fin mb kb) true msg)).isSome
          ↔ (mv : ℚ) / 10 ^ kv < (mb : ℚ) / 10 ^ kb)
        ∧ ((checkIssue (.fin mv kv) (.min (.fin mb kb) false msg)).isSome
          ↔ (mv : ℚ) / 10 ^ kv ≤ (mb : ℚ) / 10 ^ kb)
        ∧ ((checkIssue (.fin mv kv) (.max (.fin mb kb) true msg)).isSome
          ↔ (mb : ℚ) / 10 ^ kb < (mv : ℚ) / 10 ^ kv)
        ∧ ((checkIssue (.fin mv kv) (.max (.fin mb kb) false msg)).isSome
          ↔ (mb : ℚ) / 10 ^ kb ≤ (mv : ℚ) / 10 ^ kv))
      ∧ safeParse ((ZodBigNumber.create none none).gte (.fin 3 0) none)._def (.str "3")
          = .ok "3"
      ∧ safeParse ((ZodBigNumber.create none none).gte (.fin 3 0) none)._def (.str "2")
          = .error [Issue.too_small true (.fin 3 0) none]
      ∧ safeParse ((ZodBigNumber.create none none).gt (.fin 3 0) none)._def (.str "3")
          = .error [Issue.too_small false (.fin 3 0) none]
      ∧ safeParse ((ZodBigNumber.create none none).gt (.fin 3 0) none)._def (.str "2")
          = .error [Issue.too_small false (.fin 3 0) none]
      ∧ safeParse ((ZodBigNumber.create none none).gt (.fin 3 0) none)._def (.str "4")
          = .ok "4" := by
  refine ⟨?_, by decide, by decide, by decide, by decide, by decide⟩
  intro mv kv mb kb msg
  refine ⟨?_, ?_, ?_, ?_⟩
  · simp only [checkIssue, if_true]
    rw [← bigLt_fin_iff]
    cases h : bigLt (.fin mv kv) (.fin mb kb) <;> simp
  · simp only [checkIssue, if_false]
    rw [← bigLte_fin_iff]
    cases h : bigLte (.fin mv kv) (.fin mb kb) <;> simp
  · simp only [checkIssue, if_true]
    rw [← bigGt_fin_iff]
    cases h : bigGt (.fin mv kv) (.fin mb kb) <;> simp
  · simp only [checkIssue, if_false]
    rw [← bigGte_fin_iff]
    cases h : bigGte (.fin mv kv) (.fin mb kb) <;> simp

/-- C5: canonicalization on success. Under the default base 10, plain decimal
text keeps its form, exponent notation is expanded to the full digit string,
and a leading plus sign is normalized away; under the null base the parsed
value renders in its own default textual form with exponent notation
preserved; under base 2 the digits are converted to that radix. -/
theorem canonicalization_examples :
    safeParse (ZodBigNumber.create none none)._def (.str "2.91") = .ok "2.91"
      ∧ safeParse (ZodBigNumber.create none none)._def (.str "2.2222222222222222e+52")
        = .ok "22222222222222222000000000000000000000000000000000000"
      ∧ safeParse (ZodBigNumber.create none none)._def (.str "+1.1") = .ok "1.1"
      ∧ safeParse ((ZodBigNumber.create none none).positive none)._def (.str "+1.1")
        = .ok "1.1"
      ∧ safeParse ((ZodBigNumber.create none none).positive none)._def (.str "-1.1")
        = .error [Issue.too_small false (.fin 0 0) none]
      ∧ safeParse (ZodBigNumber.create none (some none))._def (.str "2.2222222222222222e+52")
        = .ok "2.2222222222222222e+52"
      ∧ safeParse (ZodBigNumber.create none (some (some 2)))._def (.str "10") = .ok "1010" :=
  ⟨by decide, by decide, by decide, by decide, by decide, by decide, by decide⟩

/-- C1: for every successfully parsed value, the engine evaluates each check
of the chain in declared order, each against the original parsed value; every
violated check contributes exactly one typed issue, in declaration order,
with no short-circuit (the issue list is exactly the in-order filter of the
chain by violation), and on failure the caller receives that complete list —
the loop is total, so no exception interrupts normal validation failure. -/
theorem checks_accumulate_in_order (d : ZodBigNumberDef) (s : String)
    (h : parseBigNum s ≠ .nan) :
    (zparse d (.str s)).1 = d.checks.filterMap (checkIssue (parseBigNum s))
      ∧ (zparse d (.str s)).2
        = ParseResult.result (!(d.checks.filterMap (checkIssue (parseBigNum s))).isEmpty)
            (bigToString d.base (parseBigNum s))
      ∧ (d.checks.filterMap (checkIssue (parseBigNum s)) ≠ [] →
          safeParse d (.str s)
            = .error (d.checks.filterMap (checkIssue (parseBigNum s)))) := by
  have hz := zparse_str d s h
  refine ⟨by rw [hz], by rw [hz], ?_⟩
  intro hne
  have hempty : (d.checks.filterMap (checkIssue (parseBigNum s))).isEmpty = false := by
    cases hl : d.checks.filterMap (checkIssue (parseBigNum s)) with
    | nil => exact absurd hl hne
    | cons a l => rfl
  unfold safeParse
  rw [hz]
  dsimp only
  rw [hempty]
  rfl

/-- C1 witness: a chain with three violated checks yields exactly the three
issues, in declaration order. -/
theorem checks_accumulate_in_order_witness :
    parseBigNum "3.5" ≠ BigNum.nan
      ∧ safeParse
          { checks := [.min (.fin 5 0) true none, .int none, .multipleOf (.fin 2 0) none],
            coerce := false, base := some 10 }
          (.str "3.5")
        = .error [Issue.too_small true (.fin 5 0) none, Issue.int_expected none,
            Issue.not_multiple_of (.fin 2 0) none] :=
  ⟨by decide,
   (checks_accumulate_in_order
      { checks := [.min (.fin 5 0) true none, .int none, .multipleOf (.fin 2 0) none],
        coerce := false, base := some 10 }
      "3.5" (by decide)).2.2 (by decide)⟩

/-! ### Round-trip lemmas: parsing back a rendered value -/

theorem takeWhile_append_of_all (p : Char → Bool) (A B : List Char)
    (h : ∀ a ∈ A, p a = true) : (A ++ B).takeWhile p = A ++ B.takeWhile p := by
  induction A with
  | nil => simp
  | cons a A ih =>
    have hpa := h a (List.mem_cons_self a A)
    simp only [List.cons_append, List.takeWhile_cons, hpa, if_true]
    rw [ih (fun x hx => h x (List.mem_cons_of_mem _ hx))]

theorem dropWhile_append_of_all (p : Char → Bool) (A B : List Char)
    (h : ∀ a ∈ A, p a = true) : (A ++ B).dropWhile p = B.dropWhile p := by
  induction A with
  | nil => simp
  | cons a A ih =>
    have hpa := h a (List.mem_cons_self a A)
    simp only [List.cons_append, List.dropWhile_cons, hpa, if_true]
    exact ih (fun x hx => h x (List.mem_cons_of_mem _ hx))

theorem takeWhile_all (p : Char → Bool) (A : List Char)
    (h : ∀ a ∈ A, p a = true) : A.takeWhile p = A := by
  have := takeWhile_append_of_all p A [] h
  simpa using this

theorem dropWhile_all (p : Char → Bool) (A : List Char)
    (h : ∀ a ∈ A, p a = true) : A.dropWhile p = [] := by
  have := dropWhile_append_of_all p A [] h
  simpa using this

theorem parseDec_all_digits (ds : List Char) (hne : ds ≠ [])
    (h : ∀ c ∈ ds, isDigitCh c = true) :
    parseDec ds = some (natFromDigits ds, 0, 0) := by
  unfold parseDec
  rw [takeWhile_all _ _ h, dropWhile_all _ _ h]
  simp [hne]

theorem parseDec_digits_point (a b : List Char) (ha : a ≠ []) (_hb : b ≠ [])
    (hda : ∀ c ∈ a, isDigitCh c = true) (hdb : ∀ c ∈ b, isDigitCh c = true) :
    parseDec (a ++ '.' :: b) = some (natFromDigits (a ++ b), b.length, 0) := by
  unfold parseDec
  rw [takeWhile_append_of_all _ _ _ hda, dropWhile_append_of_all _ _ _ hda]
  have hdot : List.takeWhile isDigitCh ('.' :: b) = [] := by
    simp [List.takeWhile_cons, isDigitCh]
  have hdot2 : List.dropWhile isDigitCh ('.' :: b) = '.' :: b := by
    simp [List.dropWhile_cons, isDigitCh]
  rw [hdot, hdot2]
  simp only [List.append_nil]
  rw [takeWhile_all _ _ hdb, dropWhile_all _ _ hdb]
  simp [ha]

theorem natFromDigits_cons_zero (A : List Char) :
    natFromDigits ('0' :: A) = natFromDigits A := by
  simp [natFromDigits, digitVal]

theorem natFromDigits_padLeft (j : Nat) (A : List Char) :
    natFromDigits (List.replicate j '0' ++ A) = natFromDigits A := by
  induction j with
  | zero => simp
  | succ j ih => rw [List.replicate_succ, List.cons_append, natFromDigits_cons_zero, ih]

theorem stripZerosN_of_last (m k : Nat) (h : m % 10 ≠ 0) :
    stripZerosN m k = (m, k) := by
  cases k with
  | zero => rfl
  | succ k => simp [stripZerosN, h]

theorem stripZerosN_snd_spec (m k : Nat) :
    (stripZerosN m k).2 ≠ 0 → (stripZerosN m k).1 % 10 ≠ 0 := by
  induction k generalizing m with
  | zero => intro h; exact absurd rfl h
  | succ k ih =>
    by_cases hm : m % 10 = 0
    · simp only [stripZerosN, hm, if_true]
      exact ih (m / 10)
    · simp only [stripZerosN, hm, if_false]
      intro _
      exact hm

theorem stripSign_no_sign (ds : List Char) (h : ∀ c ∈ ds, isDigitCh c = true) :
    stripSign ds = (false, ds) := by
  unfold stripSign
  split
  · have := h '-' (List.mem_cons_self _ _)
    simp [isDigitCh] at this
  · have := h '+' (List.mem_cons_self _ _)
    simp [isDigitCh] at this
  · rfl

theorem digits_ne_infinity_chars (ds : List Char)
    (h : ∀ c ∈ ds, isDigitCh c = true) :
    ds ≠ ['I', 'n', 'f', 'i', 'n', 'i', 't', 'y'] := by
  intro heq
  have := h 'I' (by rw [heq]; exact List.mem_cons_self _ _)
  simp [isDigitCh] at this

theorem stripSign_cons_digit (c : Char) (r : List Char) (h : isDigitCh c = true) :
    stripSign (c :: r) = (false, c :: r) := by
  have h1 : c ≠ '-' := by intro hc; subst hc; simp [isDigitCh] at h
  have h2 : c ≠ '+' := by intro hc; subst hc; simp [isDigitCh] at h
  unfold stripSign
  split <;> simp_all

theorem cons_ne_infinity (c : Char) (r : List Char) (h : isDigitCh c = true) :
    c :: r ≠ ['I', 'n', 'f', 'i', 'n', 'i', 't', 'y'] := by
  intro heq
  injection heq with h1 _
  subst h1
  simp [isDigitCh] at h

theorem padLeftZeros_all_digits (ds : List Char) (len : Nat)
    (h : ∀ c ∈ ds, isDigitCh c = true) :
    ∀ c ∈ padLeftZeros ds len, isDigitCh c = true := by
  intro c hc
  rcases List.mem_append.mp hc with hm | hm
  · rw [List.eq_of_mem_replicate hm]
    decide
  · exact h c hm

theorem padLeftZeros_length (ds : List Char) (len : Nat) :
    (padLeftZeros ds len).length = (len - ds.length) + ds.length := by
  simp [padLeftZeros]

theorem natFromDigits_padLeftZeros (ds : List Char) (len : Nat) :
    natFromDigits (padLeftZeros ds len) = natFromDigits ds :=
  natFromDigits_padLeft _ _

/-- Parsing back the plain decimal rendering of a normalized finite value
recovers the value exactly. -/
theorem parseBigNumL_renderFixedL (m : Int) (k : Nat)
    (hN : k ≠ 0 → ¬ (10 : Int) ∣ m) :
    parseBigNumL (renderFixedL m k) = BigNum.fin m k := by
  have hds_digits := digitString_all_digits m.natAbs
  have hds_ne := digitString_ne_nil m.natAbs
  by_cases hk : k = 0
  · subst hk
    have hrf : renderFixedL m 0
        = (if m < 0 then ['-'] else []) ++ digitString m.natAbs := rfl
    obtain ⟨c, ds2, hds⟩ : ∃ c ds2, digitString m.natAbs = c :: ds2 := by
      cases hd : digitString m.natAbs with
      | nil => exact absurd hd hds_ne
      | cons c ds2 => exact ⟨c, ds2, rfl⟩
    have hcdigit : isDigitCh c = true := by
      apply hds_digits
      rw [hds]
      exact List.mem_cons_self _ _
    have hcore : parseDec (digitString m.natAbs)
        = some (natFromDigits (digitString m.natAbs), 0, 0) :=
      parseDec_all_digits _ hds_ne hds_digits
    rw [natFromDigits_digitString] at hcore
    by_cases hm : m < 0
    · rw [hrf, if_pos hm]
      have hrw : ['-'] ++ digitString m.natAbs = '-' :: digitString m.natAbs := rfl
      rw [hrw]
      unfold parseBigNumL
      have hss : stripSign ('-' :: digitString m.natAbs)
          = (true, digitString m.natAbs) := rfl
      rw [hss]
      dsimp only
      rw [hds]
      rw [if_neg (cons_ne_infinity c ds2 hcdigit)]
      rw [← hds, hcore]
      dsimp only
      rw [if_pos (by norm_num : ((0 : Nat) : Int) ≤ 0)]
      have : ((0 : Int) - (0 : Nat)).toNat = 0 := by norm_num
      rw [this]
      unfold mkFin
      simp only [pow_zero, Nat.mul_one, stripZerosN, if_true]
      rw [Int.ofNat_natAbs_of_nonpos (le_of_lt hm)]
      simp
    · rw [hrf, if_neg hm]
      have hrw : ([] : List Char) ++ digitString m.natAbs = digitString m.natAbs := by simp
      rw [hrw]
      unfold parseBigNumL
      rw [stripSign_no_sign _ hds_digits]
      dsimp only
      rw [hds]
      rw [if_neg (cons_ne_infinity c ds2 hcdigit)]
      rw [← hds, hcore]
      dsimp only
      rw [if_pos (by norm_num : ((0 : Nat) : Int) ≤ 0)]
      have : ((0 : Int) - (0 : Nat)).toNat = 0 := by norm_num
      rw [this]
      unfold mkFin
      simp only [pow_zero, Nat.mul_one, stripZerosN, if_true]
      rw [Int.natAbs_of_nonneg (not_lt.mp hm)]
      simp
  · have hdvd := hN hk
    have hm0 : m.natAbs % 10 ≠ 0 := by
      intro habs
      apply hdvd
      have : (10 : Nat) ∣ m.natAbs := Nat.dvd_of_mod_eq_zero habs
      exact Int.natAbs_dvd_natAbs.mp (by simpa using this)
    set ds := digitString m.natAbs with hds_def
    set dsp := padLeftZeros ds (k + 1) with hdsp_def
    have hdsp_digits : ∀ c ∈ dsp, isDigitCh c = true :=
      padLeftZeros_all_digits ds (k + 1) hds_digits
    have hlen : k + 1 ≤ dsp.length := by
      rw [hdsp_def, padLeftZeros_length]
      omega
    set a := dsp.take (dsp.length - k) with ha_def
    set b := dsp.drop (dsp.length - k) with hb_def
    have hab : a ++ b = dsp := List.take_append_drop _ _
    have ha_len : a.length = dsp.length - k := by
      rw [ha_def, List.length_take]
      omega
    have hb_len : b.length = k := by
      rw [hb_def, List.length_drop]
      omega
    have ha_ne : a ≠ [] := by
      intro h0
      rw [h0] at ha_len
      simp at ha_len
      omega
    have hb_ne : b ≠ [] := by
      intro h0
      rw [h0] at hb_len
      simp at hb_len
      omega
    have ha_digits : ∀ c ∈ a, isDigitCh c = true := by
      intro c hc
      exact hdsp_digits c (List.take_subset _ _ hc)
    have hb_digits : ∀ c ∈ b, isDigitCh c = true := by
      intro c hc
      exact hdsp_digits c (List.drop_subset _ _ hc)
    have hnfd : natFromDigits (a ++ b) = m.natAbs := by
      rw [hab, hdsp_def, natFromDigits_padLeftZeros, hds_def, natFromDigits_digitString]
    have hcore : parseDec (a ++ '.' :: b) = some (m.natAbs, k, 0) := by
      rw [parseDec_digits_point a b ha_ne hb_ne ha_digits hb_digits, hnfd, hb_len]
    obtain ⟨c, a2, hac⟩ : ∃ c a2, a = c :: a2 := by
      cases hd : a with
      | nil => exact absurd hd ha_ne
      | cons c a2 => exact ⟨c, a2, rfl⟩
    have hcdigit : isDigitCh c = true := by
      apply ha_digits
      rw [hac]
      exact List.mem_cons_self _ _
    have hrf : renderFixedL m k
        = (if m < 0 then ['-'] else []) ++ a ++ '.' :: b := by
      unfold renderFixedL
      rw [if_neg hk]
    have hfin : ∀ neg : Bool,
        (if ((k : Nat) : Int) ≤ (0 : Int) then
            mkFin neg (m.natAbs * 10 ^ ((0 : Int) - (k : Nat)).toNat) 0
          else mkFin neg m.natAbs (((k : Nat) : Int) - (0 : Int)).toNat)
          = mkFin neg m.natAbs k := by
      intro neg
      rw [if_neg (by omega : ¬ ((k : Nat) : Int) ≤ (0 : Int))]
      have : (((k : Nat) : Int) - (0 : Int)).toNat = k := by omega
      rw [this]
    have hmk : ∀ neg : Bool, mkFin neg m.natAbs k
        = BigNum.fin (if neg then -(m.natAbs : Int) else (m.natAbs : Int)) k := by
      intro neg
      unfold mkFin
      rw [stripZerosN_of_last _ _ hm0]
    by_cases hm : m < 0
    · rw [hrf, if_pos hm]
      have hrw : ['-'] ++ a ++ '.' :: b = '-' :: (a ++ '.' :: b) := by simp
      rw [hrw]
      unfold parseBigNumL
      have hss : stripSign ('-' :: (a ++ '.' :: b)) = (true, a ++ '.' :: b) := rfl
      rw [hss]
      dsimp only
      rw [hac, List.cons_append]
      rw [if_neg (cons_ne_infinity c (a2 ++ '.' :: b) hcdigit)]
      rw [← List.cons_append, ← hac, hcore]
      dsimp only
      rw [hfin true, hmk true]
      rw [if_pos rfl, Int.ofNat_natAbs_of_nonpos (le_of_lt hm)]
      simp
    · rw [hrf, if_neg hm]
      have hrw : ([] : List Char) ++ a ++ '.' :: b = a ++ '.' :: b := by simp
      rw [hrw]
      unfold parseBigNumL
      rw [hac, List.cons_append, stripSign_cons_digit c _ hcdigit]
      dsimp only
      rw [if_neg (cons_ne_infinity c (a2 ++ '.' :: b) hcdigit)]
      rw [← List.cons_append, ← hac, hcore]
      dsimp only
      rw [hfin false, hmk false]
      rw [if_neg (by simp : ¬ (false = true)), Int.natAbs_of_nonneg (not_lt.mp hm)]

theorem mkFin_normal (neg : Bool) (m0 k0 : Nat) : (mkFin neg m0 k0).Normal := by
  have h := stripZerosN_snd_spec m0 k0
  unfold mkFin
  intro hk2
  have h1 := h hk2
  have h2 : ¬ ((10 : Int) ∣ ((stripZerosN m0 k0).1 : Int)) := by
    intro hdvd
    have h3 : (10 : Nat) ∣ (stripZerosN m0 k0).1 := by exact_mod_cast hdvd
    omega
  cases neg with
  | false => simpa using h2
  | true => simpa [dvd_neg] using h2

theorem parseBigNum_normal (s : String) : (parseBigNum s).Normal := by
  unfold parseBigNum parseBigNumL
  dsimp only
  split
  · trivial
  · split
    · trivial
    · split
      · exact mkFin_normal _ _ _
      · exact mkFin_normal _ _ _

/-- Parsing back the base-10 canonical form of any normalized non-NaN value
recovers the value exactly. -/
theorem parseBigNum_bigToString10 (v : BigNum) (hv : v ≠ .nan) (hN : v.Normal) :
    parseBigNum (bigToString (some 10) v) = v := by
  cases v with
  | nan => exact absurd rfl hv
  | inf b => cases b <;> decide
  | fin m k => exact parseBigNumL_renderFixedL m k hN

/-- C8: validation is idempotent on the base-10 canonical output — if a
string validates successfully under a base-10 configuration, validating the
canonical output again under the same configuration yields the same
outcome. -/
theorem validate_idempotent (d : ZodBigNumberDef) (s out : String)
    (hbase : d.base = some 10) (h : safeParse d (.str s) = .ok out) :
    safeParse d (.str out) = safeParse d (.str s) := by
  by_cases hnan : parseBigNum s = .nan
  · exfalso
    have hz := zparse_str_nan d s hnan
    unfold safeParse at h
    rw [hz] at h
    exact absurd h (by simp)
  · have hz := zparse_str d s hnan
    unfold safeParse at h
    rw [hz] at h
    dsimp only at h
    by_cases hL : (d.checks.filterMap (checkIssue (parseBigNum s))).isEmpty = true
    · rw [hL] at h
      simp only [Bool.not_true, Bool.false_eq_true, if_false, Except.ok.injEq] at h
      have hout : out = bigToString (some 10) (parseBigNum s) := by
        rw [← hbase, h]
      have hrt : parseBigNum out = parseBigNum s := by
        rw [hout]
        exact parseBigNum_bigToString10 _ hnan (parseBigNum_normal s)
      have hz2 := zparse_str d out (by rw [hrt]; exact hnan)
      rw [hrt] at hz2
      unfold safeParse
      rw [hz2, hz]
    · exfalso
      rw [Bool.not_eq_true] at hL
      rw [hL] at h
      simp at h

/-- C8 witness: `+1.10` canonicalizes to `1.1`, and validating `1.1` again
yields the same outcome. -/
theorem validate_idempotent_witness :
    safeParse { checks := [], coerce := false, base := some 10 } (.str "+1.10")
        = .ok "1.1"
      ∧ safeParse { checks := [], coerce := false, base := some 10 } (.str "1.1")
        = safeParse { checks := [], coerce := false, base := some 10 } (.str "+1.10") :=
  ⟨by decide, validate_idempotent _ "+1.10" "1.1" rfl (by decide)⟩

end ZodBig
